import Mathlib

set_option maxHeartbeats 1000000

/-!
Shallow embedding of the app loader in
packages/app/src/cli/models/app/loader.ts: the strict/report policy,
configuration-file parsing, specification matching, extension and web
resolution, root-directory discovery and configuration-file naming.
Filesystem reads are modelled by an explicit association list of files,
the pluggable TOML decoder by an explicit function, and the in-place
mutation of the loader's AppErrors object by explicit state passing
(a result is paired with the error set after the call, and a thrown
exception also carries the error set as it stood at the throw).
-/

/-- Loader mode, the type AppLoaderMode = 'strict' | 'report'. -/
inductive AppLoaderMode where
  | strict
  | report
  deriving DecidableEq

/-- A decode error as thrown by the pluggable decoder. TOML errors carry
line, pos and col properties; a property can be absent or zero, and the
loader tests them with JS truthiness. -/
structure DecodeErr where
  message : String
  line : Option Nat
  pos : Option Nat
  col : Option Nat
  deriving DecidableEq

/-- JS truthiness of an optional numeric error property. -/
def truthyNum : Option Nat → Bool
  | none => false
  | some n => decide (n ≠ 0)

/-- The test `err.line && err.pos && err.col` from loadConfigurationFile. -/
def DecodeErr.isPositional (e : DecodeErr) : Bool :=
  truthyNum e.line && truthyNum e.pos && truthyNum e.col

/-- Minimal model of a decoded TOML document: the loader itself only ever
inspects the `type` field (through TypeSchema). -/
structure TomlDoc where
  typeField : Option String
  deriving DecidableEq

/-- Value space for decoded configuration documents, rich enough for the JS
falsiness tests in parseConfigurationFile: the empty-string fallback used on
a missing file, the null fallback used on a positional decode error, and a
decoded (truthy) document object. -/
inductive JSValue where
  | nullv
  | emptyStr
  | doc (d : TomlDoc)
  deriving DecidableEq

/-- JS falsiness: null and the empty string are falsy, an object is truthy. -/
def JSValue.falsy : JSValue → Bool
  | .nullv => true
  | .emptyStr => true
  | .doc _ => false

/-- Exceptions crossing the loader: an AbortError carrying a message, a
rethrown decoder error (thrown unchanged by loadConfigurationFile and by
decodeToml inside findSpecificationForConfig) and a ZodError thrown by
TypeSchema.parse. -/
inductive Thrown where
  | abort (message : String)
  | decodeErr (e : DecodeErr)
  | zodErr
  deriving DecidableEq

/-- AppErrors: a mapping from a source path to one diagnostic message,
last write per path wins, insertion order of new keys preserved. -/
structure AppErrors where
  errors : List (String × String)
  deriving DecidableEq

/-- The fresh, empty error set a loader starts with. -/
def AppErrors.empty : AppErrors := ⟨[]⟩

/-- Does the error set hold an entry for the given path. -/
def AppErrors.hasKey (e : AppErrors) (path : String) : Bool :=
  e.errors.any (fun kv => decide (kv.1 = path))

/-- AppErrors.addError: `this.errors[path] = message`, overwriting any
message previously stored for the same path. -/
def AppErrors.addError (e : AppErrors) (path message : String) : AppErrors :=
  if e.hasKey path then
    ⟨e.errors.map (fun kv => if kv.1 = path then (path, message) else kv)⟩
  else
    ⟨e.errors ++ [(path, message)]⟩

/-- AppErrors.getError: the message stored for a path, when any. -/
def AppErrors.getError (e : AppErrors) (path : String) : Option String :=
  (e.errors.find? (fun kv => decide (kv.1 = path))).map (fun kv => kv.2)

/-- AppErrors.isEmpty: whether no diagnostic has been recorded. -/
def AppErrors.isEmpty (e : AppErrors) : Bool := e.errors.isEmpty

/-- AppLoader.abortOrReport: in strict mode throw an AbortError carrying the
message (never returning), in report mode record the message in the error
set under the configuration path and return the fallback. -/
def abortOrReport {α : Type} (mode : AppLoaderMode) (errorMessage : String)
    (fallback : α) (configurationPath : String) (errs : AppErrors) :
    Except Thrown α × AppErrors :=
  match mode with
  | .strict => (.error (.abort errorMessage), errs)
  | .report => (.ok fallback, errs.addError configurationPath errorMessage)

/-- Filesystem model: file paths with their raw contents, plus the set of
existing directories (only directory existence is ever queried). -/
structure FileSys where
  files : List (String × String)
  dirs : List String
  deriving DecidableEq

/-- fileExists from cli-kit, on the modelled filesystem. -/
def fileExists (fs : FileSys) (path : String) : Bool :=
  fs.files.any (fun kv => decide (kv.1 = path))

/-- readFile from cli-kit; only ever called on paths the loader found. -/
def readFile (fs : FileSys) (path : String) : String :=
  ((fs.files.find? (fun kv => decide (kv.1 = path))).map (fun kv => kv.2)).getD ("")

/-- Existence test for a directory path. -/
def directoryExists (fs : FileSys) (path : String) : Bool :=
  fs.dirs.any (fun d => decide (d = path))

/-- joinPath from cli-kit. -/
def joinPath (a b : String) : String := a ++ ("/") ++ b

/-- Is a character the path separator. -/
def isSlashChar (c : Char) : Bool := (("/").toList).any (fun d => decide (d = c))

/-- Split a character list at slashes (structural recursion, so that the
path functions evaluate inside the kernel). -/
def splitSlash : List Char → List (List Char)
  | [] => [[]]
  | c :: cs =>
    match splitSlash cs with
    | [] => [[]]
    | seg :: segs => if isSlashChar c then [] :: seg :: segs else (c :: seg) :: segs

/-- The path segments of a path string. -/
def pathSegs (p : String) : List String :=
  (splitSlash p.toList).map (fun seg => String.mk seg)

/-- Join path segments back with slashes. -/
def joinSegs : List String → String
  | [] => ""
  | [s] => s
  | s :: rest => s ++ ("/") ++ joinSegs rest

/-- dirname from cli-kit (Node path semantics for the paths the loader
builds: strip the final path segment, a single segment has parent "."). -/
def dirname (p : String) : String :=
  let parts := pathSegs p
  if parts.length ≤ 1 then (".")
  else
    let front := parts.dropLast
    if front.all (fun s => decide (s = "")) then ("/")
    else joinSegs front

/-- basename of a path. -/
def basenameStr (p : String) : String := (pathSegs p).getLastD p

/-- Message of loadConfigurationFile for a missing configuration file. -/
def missingConfigFileMessage (filepath : String) : String :=
  "Couldn\x27t find the configuration file at " ++ filepath

/-- Message of loadConfigurationFile for a positional decode error; it
embeds the original decoder message. -/
def tomlErrorMessage (filepath message : String) : String :=
  "Fix the following error in " ++ filepath ++ ":\n" ++ message

/-- Message of parseConfigurationFile for a schema validation failure; it
embeds the serialized issue list. -/
def schemaErrorMessage (filepath formattedError : String) : String :=
  "Fix a schema error in " ++ filepath ++ ":\n" ++ formattedError

/-- Message of findSpecificationForConfig for an unknown extension type. -/
def unknownTypeMessage (isShopifolk : Bool) (type configurationPath : String) : String :=
  "Unknown extension type " ++ type ++ " in " ++ configurationPath ++ ". " ++
    (if isShopifolk then "\nYou might need to enable some beta flags on your Organization or App"
     else "")

/-- Message of findEntryPath when no single-entry-point candidate exists. -/
def entryPointMissingMessage (directory : String) : String :=
  "Couldn\x27t find an index.\x7bjs,jsx,ts,tsx\x7d file in the directories " ++ directory ++
    " or " ++ joinPath directory ("src")

/-- WebType. Modelled from the spec: the enum lives in app.js, which is not
under src/; the spec names the backend and frontend roles, the only two the
loader validates. -/
inductive WebType where
  | backend
  | frontend
  deriving DecidableEq

/-- Modelled from the spec: the string value of a WebType enum member. -/
def WebType.value : WebType → String
  | .backend => "backend"
  | .frontend => "frontend"

/-- Message of validateWebs for a role declared by more than one web. -/
def roleConflictMessage (webType : WebType) : String :=
  "You can only have one web with the " ++ webType.value ++ " role in your app"

/-- Message of getAppDirectory when the starting directory does not exist. -/
def missingDirectoryMessage (directory : String) : String :=
  "Couldn\x27t find directory " ++ directory

/-- Message of getAppDirectory when no ancestor holds a root configuration. -/
def noAncestorConfigMessage (directory : String) : String :=
  "Couldn\x27t find the configuration file for " ++ directory ++
    ", are you in an app directory?"

/-- Modelled from the spec: configurationFileNames.app from constants.js
(not under src/), the default root configuration filename. -/
def appConfigurationFileNameDefault : String := "shopify.app.toml"

/-- Modelled from the spec: configurationFileNames.web from constants.js
(not under src/), the fixed per-web configuration filename. -/
def webConfigurationFileName : String := "shopify.web.toml"

/-- loadConfigurationFile: report a missing file through the policy with
the empty-string fallback; decode an existing file, routing a positional
decode error through the policy with the null fallback and rethrowing any
other decode error unchanged. -/
def loadConfigurationFile (mode : AppLoaderMode) (fs : FileSys) (filepath : String)
    (decode : String → Except DecodeErr JSValue) (errs : AppErrors) :
    Except Thrown JSValue × AppErrors :=
  if fileExists fs filepath = false then
    abortOrReport mode (missingConfigFileMessage filepath) JSValue.emptyStr filepath errs
  else
    match decode (readFile fs filepath) with
    | .ok configurationContent => (.ok configurationContent, errs)
    | .error err =>
      if err.isPositional then
        abortOrReport mode (tomlErrorMessage filepath err.message) JSValue.nullv filepath errs
      else
        (.error (.decodeErr err), errs)

/-- Outcome of zod safeParse: a typed value or a serialized issue list. -/
inductive ParseResult (α : Type) where
  | success (data : α)
  | failure (issues : String)

/-- parseConfigurationFile: load and decode the file, return the fallback
output (the empty object) whenever the decoded document is falsy, otherwise
validate against the schema, routing a validation failure through the
policy with the fallback output. -/
def parseConfigurationFile {α : Type} (mode : AppLoaderMode) (fs : FileSys)
    (schema : JSValue → ParseResult α) (fallbackOutput : α) (filepath : String)
    (decode : String → Except DecodeErr JSValue) (errs : AppErrors) :
    Except Thrown α × AppErrors :=
  match loadConfigurationFile mode fs filepath decode errs with
  | (.error e, errs1) => (.error e, errs1)
  | (.ok configurationObject, errs1) =>
    if configurationObject.falsy then (.ok fallbackOutput, errs1)
    else
      match schema configurationObject with
      | .success data => (.ok data, errs1)
      | .failure issues =>
        abortOrReport mode (schemaErrorMessage filepath issues) fallbackOutput filepath errs1

/-- One registry entry; schema and instance validation are modelled as the
functions the loader calls on them. -/
structure ExtensionSpecification where
  identifier : String
  externalIdentifier : Option String
  additionalIdentifiers : Option (List String)
  singleEntryPath : Bool
  schema : JSValue → ParseResult JSValue
  validateInstance : JSValue → Option String → Option String

/-- findSpecificationForType: first entry matching the declared type by
primary identifier, external identifier or additional-identifiers list. -/
def findSpecificationForType (specifications : List ExtensionSpecification)
    (type : String) : Option ExtensionSpecification :=
  specifications.find? (fun spec =>
    decide (spec.identifier = type) || decide (spec.externalIdentifier = some type) ||
      (spec.additionalIdentifiers.getD []).any (fun i => decide (i = type)))

/-- TypeSchema.parse: extract the `type` field from a decoded document,
throwing a ZodError when the document is not an object with one. -/
def typeSchemaParse : JSValue → Except Thrown String
  | .doc d =>
    match d.typeField with
    | some t => .ok t
    | none => .error .zodErr
  | _ => .error .zodErr

/-- Ambient collaborators of one load: the filesystem, the default TOML
decoder, the isShopify flag read for the unknown-type message, and the
framework-detection collaborator. -/
structure LoaderEnv where
  fs : FileSys
  decodeToml : String → Except DecodeErr JSValue
  isShopifolk : Bool
  resolveFramework : String → Option String

/-- findSpecificationForConfig: read and decode the file (both throwing on
failure, before the policy is consulted), extract the declared type, and
route an unknown type through the policy, returning none on the report
path. -/
def findSpecificationForConfig (mode : AppLoaderMode) (env : LoaderEnv)
    (specifications : List ExtensionSpecification) (configurationPath : String)
    (errs : AppErrors) : Except Thrown (Option ExtensionSpecification) × AppErrors :=
  match env.decodeToml (readFile env.fs configurationPath) with
  | .error e => (.error (.decodeErr e), errs)
  | .ok obj =>
    match typeSchemaParse obj with
    | .error e => (.error e, errs)
    | .ok type =>
      match findSpecificationForType specifications type with
      | some specification => (.ok (some specification), errs)
      | none =>
        abortOrReport mode (unknownTypeMessage env.isShopifolk type configurationPath)
          (none : Option ExtensionSpecification) configurationPath errs

/-- The single-entry-point candidate list exactly as findEntryPath builds
it: for each of index.js, index.jsx, index.ts, index.tsx, the src/ variant
is emitted before the top-level one. -/
def entryPathCandidates (directory : String) : List String :=
  ((["index"].flatMap
      (fun name => [name ++ ".js", name ++ ".jsx", name ++ ".ts", name ++ ".tsx"])).flatMap
    (fun fileName => ["src/" ++ fileName, fileName])).map
    (fun relativePath => joinPath directory relativePath)

/-- First existing single-entry-point candidate (the Promise.all preserves
candidate order and find takes the first defined element). -/
def findEntryPathSingle (fs : FileSys) (directory : String) : Option String :=
  (entryPathCandidates directory).findSome?
    (fun sourcePath => if fileExists fs sourcePath then some sourcePath else none)

/-- Candidate list for the function specification. -/
def functionEntryPathCandidates (directory : String) : List String :=
  (["src/index.js", "src/index.ts", "src/main.rs"]).map
    (fun relativePath => joinPath directory relativePath)

/-- First existing function entry-point candidate; absence is tolerated. -/
def findEntryPathFunction (fs : FileSys) (directory : String) : Option String :=
  (functionEntryPathCandidates directory).findSome?
    (fun sourcePath => if fileExists fs sourcePath then some sourcePath else none)

/-- AppLoader.findEntryPath: for single-entry-point specifications take the
first existing candidate and route total absence through the policy; for
the function specification probe its three candidates tolerating absence;
otherwise leave the entry path unset. -/
def findEntryPath (mode : AppLoaderMode) (fs : FileSys) (directory : String)
    (specification : ExtensionSpecification) (errs : AppErrors) :
    Except Thrown (Option String) × AppErrors :=
  if specification.singleEntryPath then
    match findEntryPathSingle fs directory with
    | some entryPath => (.ok (some entryPath), errs)
    | none =>
      abortOrReport mode (entryPointMissingMessage directory) (none : Option String)
        directory errs
  else if decide (specification.identifier = "function") then
    (.ok (findEntryPathFunction fs directory), errs)
  else
    (.ok none, errs)

/-- One discovered and validated extension. -/
structure ExtensionInstance where
  configuration : JSValue
  configurationPath : String
  entryPath : Option String
  directory : String
  specification : ExtensionSpecification

/-- The empty object used as the parseConfigurationFile fallback output. -/
def emptyObject : JSValue := .doc ⟨none⟩

/-- Processing of one extension configuration path inside loadExtensions:
match the specification (skipping, with the diagnostic already recorded,
when none matches), parse the configuration against its schema, resolve the
entry path, build the instance, and route an instance-validation failure
through the policy while still returning the instance on the report path. -/
def loadExtensionsOne (mode : AppLoaderMode) (env : LoaderEnv)
    (specifications : List ExtensionSpecification) (configurationPath : String)
    (errs : AppErrors) : Except Thrown (Option ExtensionInstance) × AppErrors :=
  match findSpecificationForConfig mode env specifications configurationPath errs with
  | (.error e, errs1) => (.error e, errs1)
  | (.ok none, errs1) => (.ok none, errs1)
  | (.ok (some specification), errs1) =>
    match parseConfigurationFile mode env.fs specification.schema emptyObject
        configurationPath env.decodeToml errs1 with
    | (.error e, errs2) => (.error e, errs2)
    | (.ok configuration, errs2) =>
      match findEntryPath mode env.fs (dirname configurationPath) specification errs2 with
      | (.error e, errs3) => (.error e, errs3)
      | (.ok entryPath, errs3) =>
        let extensionInstance : ExtensionInstance :=
          ⟨configuration, configurationPath, entryPath, dirname configurationPath,
            specification⟩
        match specification.validateInstance configuration entryPath with
        | some validateError =>
          match abortOrReport mode ("\n" ++ validateError) () configurationPath errs3 with
          | (.error e, errs4) => (.error e, errs4)
          | (.ok _, errs4) => (.ok (some extensionInstance), errs4)
        | none => (.ok (some extensionInstance), errs3)

/-- Sequential model of the joined per-path extension work followed by
getArrayRejectingUndefined: skipped entries contribute nothing, a thrown
exception fails the whole enumeration. -/
def loadExtensionsGo (mode : AppLoaderMode) (env : LoaderEnv)
    (specifications : List ExtensionSpecification) :
    List String → AppErrors → Except Thrown (List ExtensionInstance) × AppErrors
  | [], errs => (.ok [], errs)
  | configurationPath :: rest, errs =>
    match loadExtensionsOne mode env specifications configurationPath errs with
    | (.error e, errs1) => (.error e, errs1)
    | (.ok extensionOpt, errs1) =>
      match loadExtensionsGo mode env specifications rest errs1 with
      | (.error e, errs2) => (.error e, errs2)
      | (.ok instances, errs2) => (.ok (extensionOpt.toList ++ instances), errs2)

/-- AppLoader.loadExtensions, taking the glob enumeration result as the
list of extension configuration paths. -/
def loadExtensions (mode : AppLoaderMode) (env : LoaderEnv)
    (specifications : List ExtensionSpecification) (configPaths : List String)
    (errs : AppErrors) : Except Thrown (List ExtensionInstance) × AppErrors :=
  loadExtensionsGo mode env specifications configPaths errs

/-- Web configuration as the web schema yields it: an optional roles list
and an optional legacy singular type field. -/
structure WebConfigurationRaw where
  roles : Option (List WebType)
  type : Option WebType
  deriving DecidableEq

/-- Processed web configuration, the legacy type field dropped. -/
structure WebConfiguration where
  roles : List WebType
  deriving DecidableEq

/-- One resolved web sub-project. -/
structure Web where
  directory : String
  configuration : WebConfiguration
  framework : Option String
  deriving DecidableEq

/-- Insertion into a JS Set, preserving first-insertion order. -/
def insertUnique (xs : List WebType) (x : WebType) : List WebType :=
  if xs.any (fun y => decide (y = x)) then xs else xs ++ [x]

/-- new Set(list) materialized back to a list. -/
def setFrom (xs : List WebType) : List WebType := xs.foldl insertUnique []

/-- AppLoader.loadWeb: parse the web configuration, union the legacy type
field into the roles set, drop it, and detect the framework. -/
def loadWeb (mode : AppLoaderMode) (env : LoaderEnv)
    (webSchema : JSValue → ParseResult WebConfigurationRaw)
    (webConfigurationFile : String) (errs : AppErrors) :
    Except Thrown Web × AppErrors :=
  match parseConfigurationFile mode env.fs webSchema ⟨none, none⟩ webConfigurationFile
      env.decodeToml errs with
  | (.error e, errs1) => (.error e, errs1)
  | (.ok config, errs1) =>
    let roles0 := setFrom (config.roles.getD [])
    let roles :=
      match config.type with
      | some t => insertUnique roles0 t
      | none => roles0
    (.ok ⟨dirname webConfigurationFile, ⟨roles⟩,
      env.resolveFramework (dirname webConfigurationFile)⟩, errs1)

/-- One iteration of AppLoader.validateWebs: when more than one web
declares the role, route a conflict through the policy keyed to the second
offending web's configuration file. -/
def validateWebsStep (mode : AppLoaderMode) (webs : List Web) (webType : WebType)
    (errs : AppErrors) : Except Thrown Unit × AppErrors :=
  if h : 1 < (webs.filter
      (fun web => web.configuration.roles.any (fun r => decide (r = webType)))).length then
    abortOrReport mode (roleConflictMessage webType) ()
      (joinPath ((webs.filter
          (fun web => web.configuration.roles.any (fun r => decide (r = webType)))).get
          ⟨1, h⟩).directory
        webConfigurationFileName) errs
  else (.ok (), errs)

/-- AppLoader.validateWebs: the backend role first, then the frontend. -/
def validateWebs (mode : AppLoaderMode) (webs : List Web) (errs : AppErrors) :
    Except Thrown Unit × AppErrors :=
  match validateWebsStep mode webs WebType.backend errs with
  | (.error e, errs1) => (.error e, errs1)
  | (.ok _, errs1) => validateWebsStep mode webs WebType.frontend errs1

/-- Sequential model of the joined per-path web loads. -/
def loadWebsGo (mode : AppLoaderMode) (env : LoaderEnv)
    (webSchema : JSValue → ParseResult WebConfigurationRaw) :
    List String → AppErrors → Except Thrown (List Web) × AppErrors
  | [], errs => (.ok [], errs)
  | path :: rest, errs =>
    match loadWeb mode env webSchema path errs with
    | (.error e, errs1) => (.error e, errs1)
    | (.ok web, errs1) =>
      match loadWebsGo mode env webSchema rest errs1 with
      | (.error e, errs2) => (.error e, errs2)
      | (.ok webs, errs2) => (.ok (web :: webs), errs2)

/-- AppLoader.loadWebs, taking the glob enumeration result as the list of
web toml paths: load every web, validate the set and return all of them. -/
def loadWebs (mode : AppLoaderMode) (env : LoaderEnv)
    (webSchema : JSValue → ParseResult WebConfigurationRaw)
    (webTomlPaths : List String) (errs : AppErrors) :
    Except Thrown (List Web) × AppErrors :=
  match loadWebsGo mode env webSchema webTomlPaths errs with
  | (.error e, errs1) => (.error e, errs1)
  | (.ok webs, errs1) =>
    match validateWebs mode webs errs1 with
    | (.error e, errs2) => (.error e, errs2)
    | (.ok _, errs2) => (.ok webs, errs2)

/-- The assembled App model, restricted to the attributes the loader's
error handling touches; package metadata, dotenv and name do not interact
with the error set. -/
structure App where
  webs : List Web
  allExtensions : List ExtensionInstance
  errors : Option AppErrors

/-- AppLoader.loaded, from the point where the root configuration has been
resolved (that step uses the always-throwing abort policy and a separate
loader object, so it never touches this error set): load the extensions,
then the webs, assemble the App and attach the error set only when it is
not empty. -/
def AppLoader.loaded (mode : AppLoaderMode) (env : LoaderEnv)
    (specifications : List ExtensionSpecification)
    (webSchema : JSValue → ParseResult WebConfigurationRaw)
    (extensionConfigPaths webTomlPaths : List String) : Except Thrown App :=
  match loadExtensions mode env specifications extensionConfigPaths AppErrors.empty with
  | (.error e, _) => .error e
  | (.ok allExtensions, errs1) =>
    match loadWebs mode env webSchema webTomlPaths errs1 with
    | (.error e, _) => .error e
    | (.ok webs, errs2) =>
      let appClass : App := ⟨webs, allExtensions, none⟩
      .ok (if errs2.isEmpty then appClass else ⟨webs, allExtensions, some errs2⟩)

/-- Glob pattern shopify.app*.toml on a bare filename: the fixed opening
run, anything for the star, the fixed .toml ending. -/
def rootConfigPattern (name : String) : Bool :=
  let cs := name.toList
  decide (cs.take 11 = ("shopify.app").toList) && decide (16 ≤ cs.length) &&
    decide (cs.drop (cs.length - 5) = (".toml").toList)

/-- Does glob(joinPath(directory, shopify.app*.toml)) match anything: some
file sits directly in the directory and its name matches the pattern. -/
def hasRootConfigFile (fs : FileSys) (directory : String) : Bool :=
  fs.files.any (fun kv =>
    decide (dirname kv.1 = directory) && rootConfigPattern (basenameStr kv.1))

/-- The chain of directories findPathUp visits: the start, then each parent
in turn, stopping at the filesystem root (where dirname is stable). Fuel
bounds the walk; getAppDirectory passes enough for any input. -/
def ancestorChain : Nat → String → List String
  | 0, _ => []
  | fuel + 1, directory =>
    directory ::
      (if dirname directory = directory then [] else ancestorChain fuel (dirname directory))

/-- findPathUp with the root-configuration glob predicate: the nearest
visited directory containing a root configuration file. -/
def findAppDirectoryUp (fs : FileSys) : Nat → String → Option String
  | 0, _ => none
  | fuel + 1, directory =>
    if hasRootConfigFile fs directory then some directory
    else if dirname directory = directory then none
    else findAppDirectoryUp fs fuel (dirname directory)

/-- AppConfigurationLoader.getAppDirectory: throw when the starting
directory does not exist, walk upward otherwise, and throw a different
error when no visited directory holds a root configuration file. Both
throws are plain AbortErrors, independent of any loader mode. -/
def getAppDirectory (fs : FileSys) (directory : String) : Except Thrown String :=
  if directoryExists fs directory = false then
    .error (.abort (missingDirectoryMessage directory))
  else
    match findAppDirectoryUp fs (directory.length + 2) directory with
    | some appDirectory => .ok appDirectory
    | none => .error (.abort (noAncestorConfigMessage directory))

/-- A word character or hyphen, the character class of the discriminator in
the validFileRegex. -/
def isWordOrHyphenChar (c : Char) : Bool :=
  c.isAlphanum || (("_-").toList).any (fun d => decide (d = c))

/-- The test of /^shopify\.app(\.[-\w]+)?\.toml$/ : either the bare default
name, or the fixed opening run and .toml ending around a nonempty
discriminator of word characters and hyphens (the regex group cannot span a
dot, so this decomposition is exact). -/
def validFileRegexTest (s : String) : Bool :=
  decide (s = "shopify.app.toml") ||
    (let cs := s.toList
     decide (cs.take 12 = ("shopify.app.").toList) && decide (18 ≤ cs.length) &&
       decide (cs.drop (cs.length - 5) = (".toml").toList) &&
       ((cs.drop 12).take (cs.length - 17)).all isWordOrHyphenChar)

/-- getAppConfigurationFileName: no config (or the falsy empty string)
yields the default filename, a config already matching the filename regex
is returned unchanged, anything else is wrapped as shopify.app.NAME.toml. -/
def getAppConfigurationFileName (config : Option String) : String :=
  match config with
  | some c =>
    if c = "" then appConfigurationFileNameDefault
    else if validFileRegexTest c then c
    else "shopify.app." ++ c ++ ".toml"
  | none => appConfigurationFileNameDefault

/-- Candidate order as the specification words it: probe, in order,
index.js, index.jsx, index.ts, index.tsx, then src/index.js, src/index.jsx,
src/index.ts, src/index.tsx. This definition follows the spec text, not the
source, and exists to be compared against the source-derived order. -/
def specClaimedCandidates (directory : String) : List String :=
  (["index.js", "index.jsx", "index.ts", "index.tsx",
    "src/index.js", "src/index.jsx", "src/index.ts", "src/index.tsx"]).map
    (fun relativePath => joinPath directory relativePath)

/-- First existing candidate under the spec-claimed order. -/
def specClaimedEntryPath (fs : FileSys) (directory : String) : Option String :=
  (specClaimedCandidates directory).find? (fileExists fs)

/-! Helper lemmas about the error set and list scanning. -/

theorem findSome?_guard {α : Type} (p : α → Bool) (l : List α) :
    l.findSome? (fun a => if p a then some a else none) = l.find? p := by
  induction l with
  | nil => rfl
  | cons a l ih =>
    by_cases h : p a = true
    · simp [List.findSome?_cons, List.find?_cons, h]
    · simp [List.findSome?_cons, List.find?_cons, h, ih]

theorem find?_map_overwrite (l : List (String × String)) (path message : String)
    (h : l.any (fun kv => decide (kv.1 = path)) = true) :
    (l.map (fun kv => if kv.1 = path then (path, message) else kv)).find?
      (fun kv => decide (kv.1 = path)) = some (path, message) := by
  induction l with
  | nil => simp at h
  | cons kv l ih =>
    by_cases hk : kv.1 = path
    · simp [List.find?_cons, hk]
    · have h2 : l.any (fun kv => decide (kv.1 = path)) = true := by
        simpa [List.any_cons, hk] using h
      simp [List.find?_cons, hk, ih h2]

theorem find?_append_new (l : List (String × String)) (path message : String)
    (h : l.any (fun kv => decide (kv.1 = path)) = false) :
    (l ++ [(path, message)]).find? (fun kv => decide (kv.1 = path)) =
      some (path, message) := by
  induction l with
  | nil => simp [List.find?_cons]
  | cons kv l ih =>
    have hk : ¬ kv.1 = path := by
      intro he
      simp [List.any_cons, he] at h
    have h2 : l.any (fun kv => decide (kv.1 = path)) = false := by
      simpa [List.any_cons, hk] using h
    simp [List.find?_cons, hk, ih h2]

theorem getError_addError_self (e : AppErrors) (path message : String) :
    (e.addError path message).getError path = some message := by
  unfold AppErrors.addError
  by_cases h : e.hasKey path = true
  · simp only [h, if_true]
    unfold AppErrors.getError
    rw [find?_map_overwrite e.errors path message h]
    rfl
  · rw [if_neg ?_]
    · unfold AppErrors.getError
      rw [find?_append_new e.errors path message (by
        revert h
        unfold AppErrors.hasKey
        cases e.errors.any (fun kv => decide (kv.1 = path)) <;> simp)]
      rfl
    · exact h

theorem hasKey_addError_self (e : AppErrors) (path message : String) :
    (e.addError path message).hasKey path = true := by
  unfold AppErrors.addError
  by_cases h : e.hasKey path = true
  · simp only [h, if_true]
    unfold AppErrors.hasKey at h ⊢
    rcases List.any_eq_true.mp h with ⟨kv, hmem, hkv⟩
    refine List.any_eq_true.mpr ⟨(path, message), List.mem_map.mpr ⟨kv, hmem, ?_⟩, by simp⟩
    simp [decide_eq_true_eq.mp hkv]
  · rw [if_neg h]
    unfold AppErrors.hasKey
    simp

theorem hasKey_addError_mono (e : AppErrors) (path message x : String)
    (h : e.hasKey x = true) : (e.addError path message).hasKey x = true := by
  unfold AppErrors.addError
  by_cases hk : e.hasKey path = true
  · simp only [hk, if_true]
    unfold AppErrors.hasKey at h ⊢
    rcases List.any_eq_true.mp h with ⟨kv, hmem, hkv⟩
    have hx : kv.1 = x := decide_eq_true_eq.mp hkv
    by_cases hp : kv.1 = path
    · refine List.any_eq_true.mpr ⟨(path, message), List.mem_map.mpr ⟨kv, hmem, by simp [hp]⟩, ?_⟩
      simp [← hp, hx]
    · exact List.any_eq_true.mpr ⟨kv, List.mem_map.mpr ⟨kv, hmem, by simp [hp]⟩, hkv⟩
  · rw [if_neg hk]
    unfold AppErrors.hasKey at h ⊢
    simp only [List.any_append, h, Bool.true_or]

/-! Claim theorems. -/

/-- Claim C1, counterexample: with both index.js and src/index.js present
the loader selects src/index.js, while the claimed candidate order (all
top-level names before any src/ name) selects the top-level index.js, so
entry-point resolution does not follow the claimed order. -/
theorem entryPointProbeOrder_counterexample :
    findEntryPathSingle ⟨[("ext/index.js", ""), ("ext/src/index.js", "")], []⟩ ("ext") =
        some ("ext/src/index.js") ∧
    specClaimedEntryPath ⟨[("ext/index.js", ""), ("ext/src/index.js", "")], []⟩ ("ext") =
        some ("ext/index.js") ∧
    findEntryPathSingle ⟨[("ext/index.js", ""), ("ext/src/index.js", "")], []⟩ ("ext") ≠
      specClaimedEntryPath ⟨[("ext/index.js", ""), ("ext/src/index.js", "")], []⟩ ("ext") := by
  refine ⟨by decide, by decide, by decide⟩

/-- Claim C1, amended: for specifications requiring a single entry point
the loader probes the eight candidates in the order src/index.js, index.js,
src/index.jsx, index.jsx, src/index.ts, index.ts, src/index.tsx, index.tsx
(the src/ variant of each filename is probed before the top-level one) and
selects the first candidate existing on disk; when index.js and
src/index.ts exist and src/index.js does not, the top-level index.js is
selected; when no candidate exists, the strict/report policy function is
invoked (no silent absence). -/
theorem entryPointProbeOrder_amended (mode : AppLoaderMode) (fs : FileSys)
    (directory : String) (specification : ExtensionSpecification) (errs : AppErrors)
    (h : specification.singleEntryPath = true) :
    entryPathCandidates directory =
      [joinPath directory ("src/index.js"), joinPath directory ("index.js"),
       joinPath directory ("src/index.jsx"), joinPath directory ("index.jsx"),
       joinPath directory ("src/index.ts"), joinPath directory ("index.ts"),
       joinPath directory ("src/index.tsx"), joinPath directory ("index.tsx")] ∧
    findEntryPath mode fs directory specification errs =
      (match (entryPathCandidates directory).find? (fileExists fs) with
       | some sourcePath => (.ok (some sourcePath), errs)
       | none =>
         abortOrReport mode (entryPointMissingMessage directory) (none : Option String)
           directory errs) ∧
    (fileExists fs (joinPath directory ("index.js")) = true →
     fileExists fs (joinPath directory ("src/index.js")) = false →
     fileExists fs (joinPath directory ("src/index.ts")) = true →
     findEntryPathSingle fs directory = some (joinPath directory ("index.js"))) := by
  have hc : entryPathCandidates directory =
      [joinPath directory ("src/index.js"), joinPath directory ("index.js"),
       joinPath directory ("src/index.jsx"), joinPath directory ("index.jsx"),
       joinPath directory ("src/index.ts"), joinPath directory ("index.ts"),
       joinPath directory ("src/index.tsx"), joinPath directory ("index.tsx")] := rfl
  have hs : findEntryPathSingle fs directory =
      (entryPathCandidates directory).find? (fileExists fs) := by
    unfold findEntryPathSingle
    exact findSome?_guard (fileExists fs) (entryPathCandidates directory)
  refine ⟨hc, ?_, ?_⟩
  · unfold findEntryPath
    rw [if_pos h, hs]
  · intro h1 h2 h3
    rw [hs, hc]
    simp [List.find?_cons, h1, h2]

/-- Claim C1, amended, witness at a concrete input. -/
theorem entryPointProbeOrder_amended_witness :
    findEntryPath AppLoaderMode.report ⟨[("ext/src/index.ts", "")], []⟩ ("ext")
        ⟨("t"), none, none, true, fun _ => ParseResult.success JSValue.nullv,
          fun _ _ => none⟩ AppErrors.empty =
      (.ok (some ("ext/src/index.ts")), AppErrors.empty) := by
  have h := (entryPointProbeOrder_amended AppLoaderMode.report
      ⟨[("ext/src/index.ts", "")], []⟩ ("ext")
      ⟨("t"), none, none, true, fun _ => ParseResult.success JSValue.nullv,
        fun _ _ => none⟩ AppErrors.empty rfl).2.1
  rw [h]
  rfl

/-- Claim C2: abortOrReport in strict mode throws a fatal error carrying
the message and never returns; in report mode it stores the message in the
error set under the path, overwriting any message previously stored for
that path, and returns the fallback. -/
theorem abortOrReport_strict_report {α : Type} (errorMessage : String) (fallback : α)
    (configurationPath : String) (errs : AppErrors) :
    abortOrReport AppLoaderMode.strict errorMessage fallback configurationPath errs =
        (.error (.abort errorMessage), errs) ∧
    abortOrReport AppLoaderMode.report errorMessage fallback configurationPath errs =
        (.ok fallback, errs.addError configurationPath errorMessage) ∧
    (errs.addError configurationPath errorMessage).getError configurationPath =
        some errorMessage :=
  ⟨rfl, rfl, getError_addError_self errs configurationPath errorMessage⟩

/-- Claim C7: a configuration name of the form shopify.app.NAME.toml, with
NAME a nonempty run of word characters and hyphens, is returned unchanged
by getAppConfigurationFileName; the filename it produces for a bare named
variant is therefore a fixed point, so the name used to write a named
variant is exactly the one used to read it back. -/
theorem configFileName_roundTrip (d : String) (hne : d ≠ "")
    (hw : d.toList.all isWordOrHyphenChar = true) :
    getAppConfigurationFileName (some ("shopify.app." ++ d ++ ".toml")) =
        "shopify.app." ++ d ++ ".toml" ∧
    getAppConfigurationFileName (some d) = "shopify.app." ++ d ++ ".toml" ∧
    getAppConfigurationFileName (some (getAppConfigurationFileName (some d))) =
        getAppConfigurationFileName (some d) := by
  have hdl : 0 < d.toList.length := by
    rcases d with ⟨data⟩
    cases data with
    | nil => exact absurd rfl hne
    | cons c cs => simp [String.toList]
  have hdata : ("shopify.app." ++ d ++ ".toml").toList =
      (("shopify.app.").toList ++ d.toList) ++ (".toml").toList := rfl
  have hlen : (("shopify.app." ++ d ++ ".toml").toList).length = 17 + d.toList.length := by
    rw [hdata]
    simp [List.length_append]
    omega
  have hA : (("shopify.app." ++ d ++ ".toml").toList).take 12 = ("shopify.app.").toList := by
    rw [hdata, List.append_assoc]
    exact List.take_left' (by decide)
  have hC : (("shopify.app." ++ d ++ ".toml").toList).drop
      ((("shopify.app." ++ d ++ ".toml").toList).length - 5) = (".toml").toList := by
    rw [hlen, hdata]
    exact List.drop_left' (by simp [List.length_append]; omega)
  have hD : ((("shopify.app." ++ d ++ ".toml").toList).drop 12).take
      ((("shopify.app." ++ d ++ ".toml").toList).length - 17) = d.toList := by
    rw [hlen, hdata, List.append_assoc]
    rw [List.drop_left' (show (("shopify.app.").toList).length = 12 by decide)]
    exact List.take_left' (by omega)
  have hvalid : validFileRegexTest ("shopify.app." ++ d ++ ".toml") = true := by
    unfold validFileRegexTest
    rw [Bool.or_eq_true]
    right
    rw [Bool.and_eq_true, Bool.and_eq_true, Bool.and_eq_true]
    refine ⟨⟨⟨decide_eq_true ?_, decide_eq_true ?_⟩, decide_eq_true ?_⟩, ?_⟩
    · exact hA
    · rw [hlen]; omega
    · exact hC
    · rw [hD]; exact hw
  have hsne : ("shopify.app." ++ d ++ ".toml") ≠ "" := by
    intro he
    have : (("shopify.app." ++ d ++ ".toml").toList).length = 0 := by rw [he]; rfl
    rw [hlen] at this
    omega
  have h1 : getAppConfigurationFileName (some ("shopify.app." ++ d ++ ".toml")) =
      "shopify.app." ++ d ++ ".toml" := by
    unfold getAppConfigurationFileName
    dsimp only
    rw [if_neg hsne, if_pos hvalid]
  have hbad : ∃ c ∈ ("shopify.app.").toList, isWordOrHyphenChar c = false := by decide
  have hd1 : decide (d = "shopify.app.toml") = false := by
    apply decide_eq_false
    intro he
    rw [he] at hw
    exact absurd hw (by decide)
  have hd2 : decide (d.toList.take 12 = ("shopify.app.").toList) = false := by
    apply decide_eq_false
    intro he
    obtain ⟨c, hc, hcf⟩ := hbad
    have hcin : c ∈ d.toList.take 12 := he ▸ hc
    have hctrue : isWordOrHyphenChar c = true :=
      List.all_eq_true.mp hw c (List.take_subset _ _ hcin)
    rw [hctrue] at hcf
    cases hcf
  have hnotvalid : validFileRegexTest d = false := by
    unfold validFileRegexTest
    rw [hd1]
    dsimp only
    rw [hd2]
    simp
  have h2 : getAppConfigurationFileName (some d) = "shopify.app." ++ d ++ ".toml" := by
    unfold getAppConfigurationFileName
    dsimp only
    rw [if_neg hne, if_neg (by simp [hnotvalid])]
  refine ⟨h1, h2, ?_⟩
  rw [h2]
  exact h1

/-- Claim C7, witness at the discriminator staging. -/
theorem configFileName_roundTrip_witness :
    getAppConfigurationFileName (some ("shopify.app." ++ "staging" ++ ".toml")) =
        "shopify.app." ++ "staging" ++ ".toml" ∧
    getAppConfigurationFileName (some ("staging")) =
        "shopify.app." ++ "staging" ++ ".toml" ∧
    getAppConfigurationFileName (some (getAppConfigurationFileName (some ("staging")))) =
        getAppConfigurationFileName (some ("staging")) :=
  configFileName_roundTrip ("staging") (by decide) (by decide)

/-- Claim C5: when decoding a present configuration file fails with a
positional error (truthy line, pos and col), the failure is routed through
the strict/report policy function with a message embedding the original
decode message and the null fallback; any decode failure without positional
information is rethrown unchanged to the caller, in strict and in report
mode alike. -/
theorem decodeFailure_routing (mode : AppLoaderMode) (fs : FileSys) (filepath : String)
    (decode : String → Except DecodeErr JSValue) (errs : AppErrors) (err : DecodeErr)
    (hex : fileExists fs filepath = true)
    (hdec : decode (readFile fs filepath) = .error err) :
    (err.isPositional = true →
      loadConfigurationFile mode fs filepath decode errs =
        abortOrReport mode (tomlErrorMessage filepath err.message) JSValue.nullv
          filepath errs) ∧
    (∃ rest, tomlErrorMessage filepath err.message = rest ++ err.message) ∧
    (err.isPositional = false →
      loadConfigurationFile mode fs filepath decode errs =
        (.error (.decodeErr err), errs)) := by
  have hstep : loadConfigurationFile mode fs filepath decode errs =
      (if err.isPositional then
        abortOrReport mode (tomlErrorMessage filepath err.message) JSValue.nullv
          filepath errs
      else (.error (.decodeErr err), errs)) := by
    unfold loadConfigurationFile
    rw [if_neg (by simp [hex]), hdec]
  refine ⟨?_, ⟨"Fix the following error in " ++ filepath ++ ":\n", rfl⟩, ?_⟩
  · intro hp
    rw [hstep, if_pos hp]
  · intro hp
    rw [hstep, if_neg (by simp [hp])]

/-- Claim C5, witness: a concrete positional decode failure is routed
through the policy. -/
theorem decodeFailure_routing_witness :
    loadConfigurationFile AppLoaderMode.report ⟨[("f.toml", "x")], []⟩ ("f.toml")
        (fun _ => .error ⟨("boom"), some 1, some 2, some 3⟩) AppErrors.empty =
      abortOrReport AppLoaderMode.report
        (tomlErrorMessage ("f.toml") ("boom")) JSValue.nullv ("f.toml") AppErrors.empty :=
  (decodeFailure_routing AppLoaderMode.report ⟨[("f.toml", "x")], []⟩ ("f.toml")
    (fun _ => .error ⟨("boom"), some 1, some 2, some 3⟩) AppErrors.empty
    ⟨("boom"), some 1, some 2, some 3⟩ (by decide) rfl).1 (by decide)

/-- Claim C8: when an extension configuration file fails to decode, or
decodes to a document without a type field of the minimal shape,
findSpecificationForConfig throws in strict and report mode alike and the
error set is left untouched: decode and minimal-shape validation run before
the strict/report policy is ever consulted, so the file is not recorded as
a report-mode diagnostic at this step. -/
theorem specLookup_throws_before_policy (mode : AppLoaderMode) (env : LoaderEnv)
    (specifications : List ExtensionSpecification) (configurationPath : String)
    (errs : AppErrors) :
    (∀ e, env.decodeToml (readFile env.fs configurationPath) = .error e →
      findSpecificationForConfig mode env specifications configurationPath errs =
        (.error (.decodeErr e), errs)) ∧
    (∀ v e, env.decodeToml (readFile env.fs configurationPath) = .ok v →
      typeSchemaParse v = .error e →
      findSpecificationForConfig mode env specifications configurationPath errs =
        (.error e, errs)) := by
  constructor
  · intro e hdec
    unfold findSpecificationForConfig
    rw [hdec]
  · intro v e hdec hty
    unfold findSpecificationForConfig
    rw [hdec]
    dsimp only
    rw [hty]

/-- Claim C8, witness: a concrete decode failure throws with the error set
untouched. -/
theorem specLookup_throws_before_policy_witness :
    findSpecificationForConfig AppLoaderMode.report
        ⟨⟨[("p", "x")], []⟩, fun _ => .error ⟨("bad"), none, none, none⟩, false, fun _ => none⟩
        [] ("p") AppErrors.empty =
      (.error (.decodeErr ⟨("bad"), none, none, none⟩), AppErrors.empty) :=
  (specLookup_throws_before_policy AppLoaderMode.report
    ⟨⟨[("p", "x")], []⟩, fun _ => .error ⟨("bad"), none, none, none⟩, false, fun _ => none⟩
    [] ("p") AppErrors.empty).1 ⟨("bad"), none, none, none⟩ rfl

/-- Claim C9: in report mode parseConfigurationFile never yields null or
undefined: a missing file and a positional decode failure both produce the
empty-object fallback output, and the schema validator is not consulted
(the result does not depend on the schema); more generally the schema is
skipped whenever the decoded document is falsy. -/
theorem parseConfigurationFile_report_fallback {α : Type} (fs : FileSys)
    (schema : JSValue → ParseResult α) (fallbackOutput : α) (filepath : String)
    (decode : String → Except DecodeErr JSValue) (errs : AppErrors) :
    (fileExists fs filepath = false →
      parseConfigurationFile AppLoaderMode.report fs schema fallbackOutput filepath
          decode errs =
        (.ok fallbackOutput, errs.addError filepath (missingConfigFileMessage filepath))) ∧
    (∀ err, fileExists fs filepath = true →
      decode (readFile fs filepath) = .error err → err.isPositional = true →
      parseConfigurationFile AppLoaderMode.report fs schema fallbackOutput filepath
          decode errs =
        (.ok fallbackOutput, errs.addError filepath (tomlErrorMessage filepath err.message))) ∧
    (∀ v, fileExists fs filepath = true →
      decode (readFile fs filepath) = .ok v → v.falsy = true →
      parseConfigurationFile AppLoaderMode.report fs schema fallbackOutput filepath
          decode errs = (.ok fallbackOutput, errs)) := by
  refine ⟨?_, ?_, ?_⟩
  · intro hne
    have hl : loadConfigurationFile AppLoaderMode.report fs filepath decode errs =
        (.ok JSValue.emptyStr, errs.addError filepath (missingConfigFileMessage filepath)) := by
      unfold loadConfigurationFile
      rw [if_pos hne]
      rfl
    unfold parseConfigurationFile
    rw [hl]
    rfl
  · intro err hex hdec hp
    have hl : loadConfigurationFile AppLoaderMode.report fs filepath decode errs =
        (.ok JSValue.nullv, errs.addError filepath (tomlErrorMessage filepath err.message)) := by
      unfold loadConfigurationFile
      rw [if_neg (by simp [hex]), hdec]
      dsimp only
      rw [if_pos hp]
      rfl
    unfold parseConfigurationFile
    rw [hl]
    rfl
  · intro v hex hdec hfal
    have hl : loadConfigurationFile AppLoaderMode.report fs filepath decode errs =
        (.ok v, errs) := by
      unfold loadConfigurationFile
      rw [if_neg (by simp [hex]), hdec]
    unfold parseConfigurationFile
    rw [hl]
    dsimp only
    rw [if_pos hfal]

/-- Claim C9, witness: a missing file yields the fallback output in report
mode at a concrete input. -/
theorem parseConfigurationFile_report_fallback_witness :
    parseConfigurationFile AppLoaderMode.report ⟨[], []⟩
        (fun _ => ParseResult.failure ("no")) emptyObject ("missing.toml")
        (fun _ => .ok JSValue.nullv) AppErrors.empty =
      (.ok emptyObject,
        AppErrors.empty.addError ("missing.toml")
          (missingConfigFileMessage ("missing.toml"))) :=
  (parseConfigurationFile_report_fallback ⟨[], []⟩ (fun _ => ParseResult.failure ("no"))
    emptyObject ("missing.toml") (fun _ => .ok JSValue.nullv) AppErrors.empty).1 (by decide)

theorem findAppDirectoryUp_eq_find? (fs : FileSys) :
    ∀ (fuel : Nat) (directory : String),
      findAppDirectoryUp fs fuel directory =
        (ancestorChain fuel directory).find? (hasRootConfigFile fs) := by
  intro fuel
  induction fuel with
  | zero => intro directory; rfl
  | succ fuel ih =>
    intro directory
    unfold findAppDirectoryUp ancestorChain
    by_cases h1 : hasRootConfigFile fs directory = true
    · rw [if_pos h1, List.find?_cons_of_pos _ h1]
    · rw [if_neg h1, List.find?_cons_of_neg _ (by simp [h1])]
      by_cases h2 : dirname directory = directory
      · rw [if_pos h2]
        simp [h2]
      · rw [if_neg h2, ih (dirname directory)]
        simp [h2]

/-- Claim C6: getAppDirectory fails with one NotFound abort when the
starting directory does not exist, fails with a different NotFound abort
when no visited ancestor (the start included) contains a file matching the
root-configuration pattern, and on success returns the nearest matching
directory of the upward walk; the function consults no loader mode, so both
failures are fatal in every mode. -/
theorem getAppDirectory_notFound_and_nearest (fs : FileSys) (directory : String) :
    (directoryExists fs directory = false →
      getAppDirectory fs directory =
        .error (.abort (missingDirectoryMessage directory))) ∧
    (directoryExists fs directory = true →
      (ancestorChain (directory.length + 2) directory).find? (hasRootConfigFile fs) =
          none →
      getAppDirectory fs directory =
        .error (.abort (noAncestorConfigMessage directory))) ∧
    (∀ appDirectory, directoryExists fs directory = true →
      (ancestorChain (directory.length + 2) directory).find? (hasRootConfigFile fs) =
          some appDirectory →
      getAppDirectory fs directory = .ok appDirectory) ∧
    missingDirectoryMessage directory ≠ noAncestorConfigMessage directory := by
  refine ⟨?_, ?_, ?_, ?_⟩
  · intro h
    unfold getAppDirectory
    rw [if_pos h]
  · intro h hfind
    unfold getAppDirectory
    rw [if_neg (by simp [h]), findAppDirectoryUp_eq_find? fs, hfind]
  · intro appDirectory h hfind
    unfold getAppDirectory
    rw [if_neg (by simp [h]), findAppDirectoryUp_eq_find? fs, hfind]
  · intro hcontra
    have hlen := congrArg String.length hcontra
    unfold missingDirectoryMessage noAncestorConfigMessage at hlen
    rw [String.length_append, String.length_append, String.length_append] at hlen
    rw [show ("Couldn\x27t find directory ").length = 24 from rfl] at hlen
    rw [show ("Couldn\x27t find the configuration file for ").length = 41 from rfl] at hlen
    rw [show (", are you in an app directory?").length = 30 from rfl] at hlen
    omega

/-- Claim C6, witness: on a concrete filesystem the nearest ancestor with a
root configuration file is returned. -/
theorem getAppDirectory_notFound_and_nearest_witness :
    getAppDirectory ⟨[("a/shopify.app.toml", "")], ["a/b"]⟩ ("a/b") = .ok ("a") :=
  (getAppDirectory_notFound_and_nearest ⟨[("a/shopify.app.toml", "")], ["a/b"]⟩
    ("a/b")).2.2.1 ("a") (by decide) (by decide)

theorem validateWebsStep_report_ok (webs : List Web) (webType : WebType)
    (errs : AppErrors) :
    ∃ errs2, validateWebsStep AppLoaderMode.report webs webType errs = (.ok (), errs2) := by
  unfold validateWebsStep
  by_cases h : 1 < (webs.filter
      (fun web => web.configuration.roles.any (fun r => decide (r = webType)))).length
  · rw [dif_pos h]
    exact ⟨_, rfl⟩
  · rw [dif_neg h]
    exact ⟨errs, rfl⟩

theorem validateWebs_report_ok (webs : List Web) (errs : AppErrors) :
    ∃ errs2, validateWebs AppLoaderMode.report webs errs = (.ok (), errs2) := by
  unfold validateWebs
  obtain ⟨e1, h1⟩ := validateWebsStep_report_ok webs WebType.backend errs
  rw [h1]
  exact validateWebsStep_report_ok webs WebType.frontend e1

/-- Claim C3: when two or more resolved webs declare the backend role, the
backend validation pass in report mode records exactly one role-conflict
diagnostic, keyed to the configuration-file path of the second such web
(one addError on an otherwise untouched error set); report-mode validation
never fails or filters, so every resolved web still appears in the webs
list loadWebs returns; and in strict mode the backend conflict raises a
fatal error. -/
theorem webRoleConflict_report_strict (webs : List Web) (errs : AppErrors)
    (h : 1 < (webs.filter
      (fun web => web.configuration.roles.any
        (fun r => decide (r = WebType.backend)))).length) :
    validateWebsStep AppLoaderMode.report webs WebType.backend errs =
      (.ok (), errs.addError
        (joinPath ((webs.filter
            (fun web => web.configuration.roles.any
              (fun r => decide (r = WebType.backend)))).get ⟨1, h⟩).directory
          webConfigurationFileName)
        (roleConflictMessage WebType.backend)) ∧
    (∀ (env : LoaderEnv) (webSchema : JSValue → ParseResult WebConfigurationRaw)
        (paths : List String) (errs0 errs1 : AppErrors),
      loadWebsGo AppLoaderMode.report env webSchema paths errs0 = (.ok webs, errs1) →
      ∃ errs2, loadWebs AppLoaderMode.report env webSchema paths errs0 =
        (.ok webs, errs2)) ∧
    validateWebs AppLoaderMode.strict webs errs =
      (.error (.abort (roleConflictMessage WebType.backend)), errs) := by
  refine ⟨?_, ?_, ?_⟩
  · unfold validateWebsStep
    rw [dif_pos h]
    rfl
  · intro env webSchema paths errs0 errs1 hgo
    unfold loadWebs
    rw [hgo]
    dsimp only
    obtain ⟨errs2, hv⟩ := validateWebs_report_ok webs errs1
    rw [hv]
    exact ⟨errs2, rfl⟩
  · unfold validateWebs
    have hstep : validateWebsStep AppLoaderMode.strict webs WebType.backend errs =
        (.error (.abort (roleConflictMessage WebType.backend)), errs) := by
      unfold validateWebsStep
      rw [dif_pos h]
      rfl
    rw [hstep]

/-- Claim C3, witness: two concrete backend webs produce exactly one
conflict diagnostic keyed to the second web's configuration file. -/
theorem webRoleConflict_report_strict_witness :
    validateWebsStep AppLoaderMode.report
        [⟨("w1"), ⟨[WebType.backend]⟩, none⟩, ⟨("w2"), ⟨[WebType.backend]⟩, none⟩]
        WebType.backend AppErrors.empty =
      (.ok (), AppErrors.empty.addError ("w2/shopify.web.toml")
        (roleConflictMessage WebType.backend)) :=
  (webRoleConflict_report_strict
    [⟨("w1"), ⟨[WebType.backend]⟩, none⟩, ⟨("w2"), ⟨[WebType.backend]⟩, none⟩]
    AppErrors.empty (by decide)).1

theorem hasKey_abortOrReport {α : Type} (mode : AppLoaderMode) (msg : String) (fb : α)
    (path : String) (errs : AppErrors) (x : String) (h : errs.hasKey x = true) :
    (abortOrReport mode msg fb path errs).2.hasKey x = true := by
  cases mode
  · exact h
  · exact hasKey_addError_mono errs path msg x h

theorem hasKey_loadConfigurationFile (mode : AppLoaderMode) (fs : FileSys)
    (filepath : String) (decode : String → Except DecodeErr JSValue) (errs : AppErrors)
    (x : String) (h : errs.hasKey x = true) :
    (loadConfigurationFile mode fs filepath decode errs).2.hasKey x = true := by
  unfold loadConfigurationFile
  split
  · exact hasKey_abortOrReport mode _ JSValue.emptyStr filepath errs x h
  · split
    · exact h
    · split
      · exact hasKey_abortOrReport mode _ JSValue.nullv filepath errs x h
      · exact h

theorem hasKey_parseConfigurationFile {α : Type} (mode : AppLoaderMode) (fs : FileSys)
    (schema : JSValue → ParseResult α) (fb : α) (filepath : String)
    (decode : String → Except DecodeErr JSValue) (errs : AppErrors) (x : String)
    (h : errs.hasKey x = true) :
    (parseConfigurationFile mode fs schema fb filepath decode errs).2.hasKey x = true := by
  unfold parseConfigurationFile
  have hl := hasKey_loadConfigurationFile mode fs filepath decode errs x h
  rcases hres : loadConfigurationFile mode fs filepath decode errs with ⟨res, errs1⟩
  rw [hres] at hl
  cases res with
  | error e => exact hl
  | ok v =>
    dsimp only
    split
    · exact hl
    · split
      · exact hl
      · exact hasKey_abortOrReport mode _ fb filepath errs1 x hl

theorem hasKey_findSpecificationForConfig (mode : AppLoaderMode) (env : LoaderEnv)
    (specifications : List ExtensionSpecification) (configurationPath : String)
    (errs : AppErrors) (x : String) (h : errs.hasKey x = true) :
    (findSpecificationForConfig mode env specifications configurationPath errs).2.hasKey x
      = true := by
  unfold findSpecificationForConfig
  split
  · exact h
  · split
    · exact h
    · split
      · exact h
      · exact hasKey_abortOrReport mode _ (none : Option ExtensionSpecification)
          configurationPath errs x h

theorem hasKey_findEntryPath (mode : AppLoaderMode) (fs : FileSys) (directory : String)
    (specification : ExtensionSpecification) (errs : AppErrors) (x : String)
    (h : errs.hasKey x = true) :
    (findEntryPath mode fs directory specification errs).2.hasKey x = true := by
  unfold findEntryPath
  split
  · split
    · exact h
    · exact hasKey_abortOrReport mode _ (none : Option String) directory errs x h
  · split
    · exact h
    · exact h

theorem hasKey_loadExtensionsOne (mode : AppLoaderMode) (env : LoaderEnv)
    (specifications : List ExtensionSpecification) (configurationPath : String)
    (errs : AppErrors) (x : String) (h : errs.hasKey x = true) :
    (loadExtensionsOne mode env specifications configurationPath errs).2.hasKey x
      = true := by
  unfold loadExtensionsOne
  rcases h1 : findSpecificationForConfig mode env specifications configurationPath errs
    with ⟨r1, e1⟩
  have hk1 : e1.hasKey x = true := by
    have := hasKey_findSpecificationForConfig mode env specifications configurationPath
      errs x h
    rw [h1] at this
    exact this
  cases r1 with
  | error e => exact hk1
  | ok os =>
    cases os with
    | none => exact hk1
    | some specification =>
      dsimp only
      rcases h2 : parseConfigurationFile mode env.fs specification.schema emptyObject
          configurationPath env.decodeToml e1 with ⟨r2, e2⟩
      have hk2 : e2.hasKey x = true := by
        have := hasKey_parseConfigurationFile mode env.fs specification.schema emptyObject
          configurationPath env.decodeToml e1 x hk1
        rw [h2] at this
        exact this
      cases r2 with
      | error e => exact hk2
      | ok configuration =>
        dsimp only
        rcases h3 : findEntryPath mode env.fs (dirname configurationPath) specification e2
          with ⟨r3, e3⟩
        have hk3 : e3.hasKey x = true := by
          have := hasKey_findEntryPath mode env.fs (dirname configurationPath)
            specification e2 x hk2
          rw [h3] at this
          exact this
        cases r3 with
        | error e => exact hk3
        | ok entryPath =>
          dsimp only
          split
          · rename_i validateError heq
            rcases h4 : abortOrReport mode ("\n" ++ validateError) () configurationPath e3
              with ⟨r4, e4⟩
            have hk4 : e4.hasKey x = true := by
              have := hasKey_abortOrReport mode ("\n" ++ validateError) ()
                configurationPath e3 x hk3
              rw [h4] at this
              exact this
            cases r4 with
            | error e => exact hk4
            | ok u => exact hk4
          · exact hk3

theorem hasKey_loadExtensionsGo (mode : AppLoaderMode) (env : LoaderEnv)
    (specifications : List ExtensionSpecification) :
    ∀ (paths : List String) (errs : AppErrors) (x : String), errs.hasKey x = true →
      (loadExtensionsGo mode env specifications paths errs).2.hasKey x = true := by
  intro paths
  induction paths with
  | nil => intro errs x h; exact h
  | cons q rest ih =>
    intro errs x h
    unfold loadExtensionsGo
    rcases h1 : loadExtensionsOne mode env specifications q errs with ⟨r1, e1⟩
    have hk1 : e1.hasKey x = true := by
      have := hasKey_loadExtensionsOne mode env specifications q errs x h
      rw [h1] at this
      exact this
    cases r1 with
    | error e => exact hk1
    | ok extOpt =>
      dsimp only
      rcases h2 : loadExtensionsGo mode env specifications rest e1 with ⟨r2, e2⟩
      have hk2 : e2.hasKey x = true := by
        have := ih e1 x hk1
        rw [h2] at this
        exact this
      cases r2 with
      | error e => exact hk2
      | ok instances => exact hk2

theorem findSpecificationForConfig_unknown (mode : AppLoaderMode) (env : LoaderEnv)
    (specifications : List ExtensionSpecification) (p : String) (v : JSValue) (t : String)
    (hdec : env.decodeToml (readFile env.fs p) = .ok v)
    (hty : typeSchemaParse v = .ok t)
    (hnone : ∀ spec ∈ specifications, spec.identifier ≠ t ∧
      spec.externalIdentifier ≠ some t ∧ t ∉ spec.additionalIdentifiers.getD []) :
    ∀ errs, findSpecificationForConfig mode env specifications p errs =
      abortOrReport mode (unknownTypeMessage env.isShopifolk t p)
        (none : Option ExtensionSpecification) p errs := by
  have hfind : findSpecificationForType specifications t = none := by
    unfold findSpecificationForType
    rw [List.find?_eq_none]
    intro spec hmem
    obtain ⟨h1, h2, h3⟩ := hnone spec hmem
    simp only [Bool.or_eq_true, decide_eq_true_eq, List.any_eq_true, not_or]
    push_neg
    refine ⟨⟨h1, h2⟩, ?_⟩
    intro i hi he
    exact h3 (he ▸ hi)
  intro errs
  unfold findSpecificationForConfig
  rw [hdec]
  dsimp only
  rw [hty]
  dsimp only
  rw [hfind]

theorem loadExtensionsOne_unknown (env : LoaderEnv)
    (specifications : List ExtensionSpecification) (p : String) (v : JSValue) (t : String)
    (hdec : env.decodeToml (readFile env.fs p) = .ok v)
    (hty : typeSchemaParse v = .ok t)
    (hnone : ∀ spec ∈ specifications, spec.identifier ≠ t ∧
      spec.externalIdentifier ≠ some t ∧ t ∉ spec.additionalIdentifiers.getD []) :
    (∀ errs, loadExtensionsOne AppLoaderMode.report env specifications p errs =
      (.ok none, errs.addError p (unknownTypeMessage env.isShopifolk t p))) ∧
    (∀ errs, loadExtensionsOne AppLoaderMode.strict env specifications p errs =
      (.error (.abort (unknownTypeMessage env.isShopifolk t p)), errs)) := by
  have hc := findSpecificationForConfig_unknown
  constructor
  · intro errs
    unfold loadExtensionsOne
    rw [findSpecificationForConfig_unknown AppLoaderMode.report env specifications p v t
      hdec hty hnone errs]
    rfl
  · intro errs
    unfold loadExtensionsOne
    rw [findSpecificationForConfig_unknown AppLoaderMode.strict env specifications p v t
      hdec hty hnone errs]
    rfl

theorem loadExtensionsOne_instance_path (mode : AppLoaderMode) (env : LoaderEnv)
    (specifications : List ExtensionSpecification) (q : String) (errs : AppErrors)
    (inst : ExtensionInstance) (errs2 : AppErrors)
    (h : loadExtensionsOne mode env specifications q errs = (.ok (some inst), errs2)) :
    inst.configurationPath = q := by
  unfold loadExtensionsOne at h
  rcases h1 : findSpecificationForConfig mode env specifications q errs with ⟨r1, e1⟩
  rw [h1] at h
  cases r1 with
  | error e => simp at h
  | ok os =>
    cases os with
    | none => simp at h
    | some specification =>
      dsimp only at h
      rcases h2 : parseConfigurationFile mode env.fs specification.schema emptyObject q
          env.decodeToml e1 with ⟨r2, e2⟩
      rw [h2] at h
      cases r2 with
      | error e => simp at h
      | ok configuration =>
        dsimp only at h
        rcases h3 : findEntryPath mode env.fs (dirname q) specification e2 with ⟨r3, e3⟩
        rw [h3] at h
        cases r3 with
        | error e => simp at h
        | ok entryPath =>
          dsimp only at h
          cases hv : specification.validateInstance configuration entryPath with
          | none =>
            rw [hv] at h
            simp only [Prod.mk.injEq, Except.ok.injEq, Option.some.injEq] at h
            rw [← h.1]
          | some validateError =>
            rw [hv] at h
            dsimp only at h
            rcases h4 : abortOrReport mode ("\n" ++ validateError) () q e3 with ⟨r4, e4⟩
            rw [h4] at h
            cases r4 with
            | error e => simp at h
            | ok u =>
              simp only [Prod.mk.injEq, Except.ok.injEq, Option.some.injEq] at h
              rw [← h.1]

theorem loadExtensionsGo_unknown_not_in (env : LoaderEnv)
    (specifications : List ExtensionSpecification) (p : String) (v : JSValue) (t : String)
    (hdec : env.decodeToml (readFile env.fs p) = .ok v)
    (hty : typeSchemaParse v = .ok t)
    (hnone : ∀ spec ∈ specifications, spec.identifier ≠ t ∧
      spec.externalIdentifier ≠ some t ∧ t ∉ spec.additionalIdentifiers.getD []) :
    ∀ (paths : List String) (errs : AppErrors) (insts : List ExtensionInstance)
      (errsR : AppErrors),
      loadExtensionsGo AppLoaderMode.report env specifications paths errs =
        (.ok insts, errsR) →
      ∀ inst ∈ insts, inst.configurationPath ≠ p := by
  intro paths
  induction paths with
  | nil =>
    intro errs insts errsR hrun inst hmem
    simp only [loadExtensionsGo, Prod.mk.injEq, Except.ok.injEq] at hrun
    rw [← hrun.1] at hmem
    simp at hmem
  | cons q rest ih =>
    intro errs insts errsR hrun inst hmem
    unfold loadExtensionsGo at hrun
    rcases h1 : loadExtensionsOne AppLoaderMode.report env specifications q errs
      with ⟨r1, e1⟩
    rw [h1] at hrun
    cases r1 with
    | error e => simp at hrun
    | ok extOpt =>
      dsimp only at hrun
      rcases h2 : loadExtensionsGo AppLoaderMode.report env specifications rest e1
        with ⟨r2, e2⟩
      rw [h2] at hrun
      cases r2 with
      | error e => simp at hrun
      | ok instances =>
        simp only [Prod.mk.injEq, Except.ok.injEq] at hrun
        rw [← hrun.1] at hmem
        rcases List.mem_append.mp hmem with hA | hB
        · cases extOpt with
          | none => simp at hA
          | some inst1 =>
            have hins : inst = inst1 := by simpa using hA
            subst hins
            by_cases hq : q = p
            · subst hq
              rw [(loadExtensionsOne_unknown env specifications q v t hdec hty hnone).1
                errs] at h1
              simp at h1
            · rw [loadExtensionsOne_instance_path AppLoaderMode.report env specifications
                q errs inst e1 h1]
              exact hq
        · exact ih e1 instances e2 h2 inst hB

theorem loadExtensionsGo_unknown_key (env : LoaderEnv)
    (specifications : List ExtensionSpecification) (p : String) (v : JSValue) (t : String)
    (hdec : env.decodeToml (readFile env.fs p) = .ok v)
    (hty : typeSchemaParse v = .ok t)
    (hnone : ∀ spec ∈ specifications, spec.identifier ≠ t ∧
      spec.externalIdentifier ≠ some t ∧ t ∉ spec.additionalIdentifiers.getD []) :
    ∀ (paths : List String) (errs : AppErrors) (insts : List ExtensionInstance)
      (errsR : AppErrors), p ∈ paths →
      loadExtensionsGo AppLoaderMode.report env specifications paths errs =
        (.ok insts, errsR) →
      errsR.hasKey p = true := by
  intro paths
  induction paths with
  | nil =>
    intro errs insts errsR hmem hrun
    cases hmem
  | cons q rest ih =>
    intro errs insts errsR hmem hrun
    unfold loadExtensionsGo at hrun
    rcases h1 : loadExtensionsOne AppLoaderMode.report env specifications q errs
      with ⟨r1, e1⟩
    rw [h1] at hrun
    cases r1 with
    | error e => simp at hrun
    | ok extOpt =>
      dsimp only at hrun
      rcases h2 : loadExtensionsGo AppLoaderMode.report env specifications rest e1
        with ⟨r2, e2⟩
      rw [h2] at hrun
      cases r2 with
      | error e => simp at hrun
      | ok instances =>
        simp only [Prod.mk.injEq, Except.ok.injEq] at hrun
        by_cases hq : q = p
        · subst hq
          rw [(loadExtensionsOne_unknown env specifications q v t hdec hty hnone).1
            errs] at h1
          have he1 : e1 = errs.addError q (unknownTypeMessage env.isShopifolk t q) := by
            simp only [Prod.mk.injEq] at h1
            exact h1.2.symm
          have hk1 : e1.hasKey q = true := by
            rw [he1]
            exact hasKey_addError_self errs q (unknownTypeMessage env.isShopifolk t q)
          have hk2 : e2.hasKey q = true := by
            have := hasKey_loadExtensionsGo AppLoaderMode.report env specifications rest
              e1 q hk1
            rw [h2] at this
            exact this
          rw [← hrun.2]
          exact hk2
        · have hp : p ∈ rest := by
            rcases List.mem_cons.mp hmem with h | h
            · exact absurd h.symm hq
            · exact h
          have hk2 := ih e1 instances e2 hp h2
          rw [← hrun.2]
          exact hk2

theorem loadExtensionsGo_unknown_strict (env : LoaderEnv)
    (specifications : List ExtensionSpecification) (p : String) (v : JSValue) (t : String)
    (hdec : env.decodeToml (readFile env.fs p) = .ok v)
    (hty : typeSchemaParse v = .ok t)
    (hnone : ∀ spec ∈ specifications, spec.identifier ≠ t ∧
      spec.externalIdentifier ≠ some t ∧ t ∉ spec.additionalIdentifiers.getD []) :
    ∀ (paths : List String) (errs : AppErrors), p ∈ paths →
      ∃ e errsR, loadExtensionsGo AppLoaderMode.strict env specifications paths errs =
        (.error e, errsR) := by
  intro paths
  induction paths with
  | nil =>
    intro errs hmem
    cases hmem
  | cons q rest ih =>
    intro errs hmem
    by_cases hq : q = p
    · subst hq
      refine ⟨.abort (unknownTypeMessage env.isShopifolk t q), errs, ?_⟩
      unfold loadExtensionsGo
      rw [(loadExtensionsOne_unknown env specifications q v t hdec hty hnone).2 errs]
    · rcases h1 : loadExtensionsOne AppLoaderMode.strict env specifications q errs
        with ⟨r1, e1⟩
      cases r1 with
      | error e =>
        refine ⟨e, e1, ?_⟩
        unfold loadExtensionsGo
        rw [h1]
      | ok extOpt =>
        have hp : p ∈ rest := by
          rcases List.mem_cons.mp hmem with h | h
          · exact absurd h.symm hq
          · exact h
        obtain ⟨e, errsR, hrest⟩ := ih e1 hp
        refine ⟨e, errsR, ?_⟩
        unfold loadExtensionsGo
        rw [h1]
        dsimp only
        rw [hrest]

/-- Claim C4: for an extension configuration file that decodes to a
document whose declared type matches no specification (not the primary
identifier, not the external identifier, not in the additional-identifiers
list of any entry), in report mode the extension does not appear in the
returned allExtensions list and the file path is a key of the resulting
error set; in strict mode loadExtensions raises and returns nothing. -/
theorem unknownExtensionType_report_strict (env : LoaderEnv)
    (specifications : List ExtensionSpecification) (configPaths : List String)
    (p : String) (v : JSValue) (t : String) (errs0 : AppErrors)
    (hmem : p ∈ configPaths)
    (hdec : env.decodeToml (readFile env.fs p) = .ok v)
    (hty : typeSchemaParse v = .ok t)
    (hnone : ∀ spec ∈ specifications, spec.identifier ≠ t ∧
      spec.externalIdentifier ≠ some t ∧ t ∉ spec.additionalIdentifiers.getD []) :
    (∀ insts errsR,
      loadExtensions AppLoaderMode.report env specifications configPaths errs0 =
        (.ok insts, errsR) →
      (∀ inst ∈ insts, inst.configurationPath ≠ p) ∧ errsR.hasKey p = true) ∧
    (∃ e errsR, loadExtensions AppLoaderMode.strict env specifications configPaths errs0 =
      (.error e, errsR)) := by
  constructor
  · intro insts errsR hrun
    exact ⟨loadExtensionsGo_unknown_not_in env specifications p v t hdec hty hnone
        configPaths errs0 insts errsR hrun,
      loadExtensionsGo_unknown_key env specifications p v t hdec hty hnone
        configPaths errs0 insts errsR hmem hrun⟩
  · exact loadExtensionsGo_unknown_strict env specifications p v t hdec hty hnone
      configPaths errs0 hmem

/-- Claim C4, witness: one concrete config file of unknown type against an
empty registry. -/
theorem unknownExtensionType_report_strict_witness :
    (∀ inst ∈ ([] : List ExtensionInstance),
      inst.configurationPath ≠ "extensions/a/a.extension.toml") ∧
    (AppErrors.empty.addError ("extensions/a/a.extension.toml")
        (unknownTypeMessage false ("unknown-kind")
          ("extensions/a/a.extension.toml"))).hasKey
      ("extensions/a/a.extension.toml") = true :=
  (unknownExtensionType_report_strict
    ⟨⟨[("extensions/a/a.extension.toml", "t")], []⟩,
      fun _ => .ok (.doc ⟨some ("unknown-kind")⟩), false, fun _ => none⟩
    [] [("extensions/a/a.extension.toml")] ("extensions/a/a.extension.toml")
    (.doc ⟨some ("unknown-kind")⟩) ("unknown-kind") AppErrors.empty
    (by simp) rfl rfl (by simp)).1 [] _ rfl

/-- Claim C10: for every completed load, the errors attribute of the
returned App is set if and only if at least one diagnostic was recorded
during that load: the App is assembled with the attribute unset, the final
error set is attached only when it is not empty, so the presence of the
attribute is equivalent to the error set being non-empty. -/
theorem loaded_errors_attribute_iff (mode : AppLoaderMode) (env : LoaderEnv)
    (specifications : List ExtensionSpecification)
    (webSchema : JSValue → ParseResult WebConfigurationRaw)
    (extensionConfigPaths webTomlPaths : List String)
    (allExtensions : List ExtensionInstance) (errs1 : AppErrors)
    (webs : List Web) (errs2 : AppErrors)
    (hext : loadExtensions mode env specifications extensionConfigPaths AppErrors.empty =
      (.ok allExtensions, errs1))
    (hweb : loadWebs mode env webSchema webTomlPaths errs1 = (.ok webs, errs2)) :
    ∃ app, AppLoader.loaded mode env specifications webSchema extensionConfigPaths
        webTomlPaths = .ok app ∧
      app.errors = (if errs2.isEmpty then none else some errs2) ∧
      ((app.errors ≠ none) ↔ errs2.isEmpty = false) := by
  have hloaded : AppLoader.loaded mode env specifications webSchema extensionConfigPaths
      webTomlPaths =
      .ok (if errs2.isEmpty then (⟨webs, allExtensions, none⟩ : App)
           else ⟨webs, allExtensions, some errs2⟩) := by
    unfold AppLoader.loaded
    rw [hext]
    dsimp only
    rw [hweb]
  refine ⟨_, hloaded, ?_, ?_⟩
  · by_cases he : errs2.isEmpty = true
    · simp [he]
    · simp [he]
  · by_cases he : errs2.isEmpty = true
    · simp [he]
    · simp [he]

/-- Claim C10, witness: a load with nothing to discover records nothing and
leaves the errors attribute unset. -/
theorem loaded_errors_attribute_iff_witness :
    ∃ app, AppLoader.loaded AppLoaderMode.report
        ⟨⟨[], []⟩, fun _ => .ok JSValue.nullv, false, fun _ => none⟩ []
        (fun _ => ParseResult.failure ("no")) [] [] = .ok app ∧
      app.errors = (if AppErrors.empty.isEmpty then none else some AppErrors.empty) ∧
      ((app.errors ≠ none) ↔ AppErrors.empty.isEmpty = false) :=
  loaded_errors_attribute_iff AppLoaderMode.report
    ⟨⟨[], []⟩, fun _ => .ok JSValue.nullv, false, fun _ => none⟩ []
    (fun _ => ParseResult.failure ("no")) [] [] [] AppErrors.empty [] AppErrors.empty
    rfl rfl
